import Mathlib

/-!
Verification development for the flight-records batch-analytics job
(`code_final_v1.py`, PySpark) and its control-plane API (`flask_app.py`).

The Python functions are embedded shallowly:

* an RDD of text lines becomes a `List String`; each string is viewed
  through its `data : List Char`, and string comparison is the
  code-point-wise lexicographic order that Python uses on `str`
  (`listLt` below, made structurally recursive so it computes);
* `line.split(',')` becomes `splitComma` on the character list, which
  keeps empty fields and never drops a row, exactly like the Python split;
* indexing a too-short list (Python `IndexError`) and other run-aborting
  failures are modelled by `Option`: `none` means the job raises;
* `groupByKey`/`reduceByKey`/`sortBy` are modelled over association
  lists, with the deterministic final order given by the sort key
  `(-count, pair.fst, pair.snd)` of the source;
* the object store of the sink and of the `/results` endpoint becomes a
  list of `(path, content)` objects, and `json.loads` an abstract
  parser `String → Except String J`.
-/

/-- Strict lexicographic comparison of char lists by code point, mirroring
Python string comparison (`<` on `str`): a proper prefix is smaller. -/
def listLt : List Char → List Char → Bool
  | _, [] => false
  | [], _ :: _ => true
  | a :: as, b :: bs => if a < b then true else if b < a then false else listLt as bs

/-- Python string `a < b` (code-point lexicographic order). -/
def strLt (a b : String) : Prop := listLt a.data b.data = true

/-- Python string `a <= b`. -/
def strLe (a b : String) : Prop := listLt b.data a.data = false

instance : DecidableRel strLt := fun a b => by unfold strLt; infer_instance

instance : DecidableRel strLe := fun a b => by unfold strLe; infer_instance

/-- Python `line.split(',')` on the character list of the line: splits at
every comma, keeps empty fields, and yields one field even for the empty
line. -/
def splitComma : List Char → List (List Char)
  | [] => [[]]
  | c :: rest =>
    if c = ',' then [] :: splitComma rest
    else
      match splitComma rest with
      | [] => [[c]]
      | f :: fs => (c :: f) :: fs

/-- `line.split(',')` of the source, as a list of strings. -/
def splitLine (line : String) : List String :=
  (splitComma line.data).map (fun f => ⟨f⟩)

/-- The per-line map `lambda x: ((x[0], x[2]), x[1])` of
`co_occurring_airline_pairs_by_origin`, composed with the split: key is
`(date, origin)`, value is `airline`.  Python raises `IndexError` when the
split yields fewer than three fields; that abort is modelled by `none`. -/
def parseLine (line : String) : Option ((String × String) × String) :=
  match splitLine line with
  | date :: airline :: origin :: _ => some ((date, origin), airline)
  | _ => none

/-- All lines mapped by `parseLine`; a single bad line aborts the whole
job (`none`), as an uncaught `IndexError` does in the Spark job. -/
def parseLines (lines : List String) : Option (List ((String × String) × String)) :=
  lines.mapM parseLine

/-- The distinct `(date, origin)` keys of the record list, in first-occurrence
order (the key set over which `groupByKey` produces one group). -/
def keysOf (records : List ((String × String) × String)) : List (String × String) :=
  (records.map Prod.fst).dedup

/-- The airline values grouped under key `k` by `groupByKey` (with
duplicates, in input order, as `mapValues(list)` keeps them). -/
def valuesFor (k : String × String) (records : List ((String × String) × String)) :
    List String :=
  (records.filter (fun e => decide (e.1 = k))).map Prod.snd

/-- `date_origin_airline.groupByKey().mapValues(list)` over the record
list: one group per distinct key. -/
def groupByKey (records : List ((String × String) × String)) :
    List ((String × String) × List String) :=
  (keysOf records).map (fun k => (k, valuesFor k records))

/-- All pairs `(u[i], u[j])` with `i < j`, in the double-loop order of the
list comprehension of the source. -/
def pairsOf : List String → List (String × String)
  | [] => []
  | a :: rest => rest.map (fun b => (a, b)) ++ pairsOf rest

/-- `generate_pairs(airlines)` of the source: `u = sorted(set(airlines))`,
then `[((u[i], u[j]), 1) for i in range(len(u)) for j in range(i+1, len(u))]`. -/
def generate_pairs (airlines : List String) : List ((String × String) × Nat) :=
  (pairsOf (List.insertionSort strLe airlines.dedup)).map (fun p => (p, 1))

/-- `grouped_airlines.flatMap(lambda x: generate_pairs(x[1]))`. -/
def increments (groups : List ((String × String) × List String)) :
    List ((String × String) × Nat) :=
  groups.flatMap (fun g => generate_pairs g.2)

/-- The total count an association list of pair increments/counts holds for
the key `p` (0 when the key is absent). -/
def lookupCount (l : List ((String × String) × Nat)) (p : String × String) : Nat :=
  ((l.filter (fun e => decide (e.1 = p))).map (fun e => e.2)).sum

/-- `reduceByKey(lambda a, b: a + b)`: one entry per distinct key, holding
the sum of all values for that key. -/
def reduceByKey (l : List ((String × String) × Nat)) : List ((String × String) × Nat) :=
  ((l.map Prod.fst).dedup).map (fun k => (k, lookupCount l k))

/-- The sort key `lambda x: (-x[1], x[0][0], x[0][1])` of the final
`sortBy`, as a relation: count descending, then first airline code
ascending, then second airline code ascending. -/
def rankLE (x y : (String × String) × Nat) : Prop :=
  y.2 < x.2 ∨ (x.2 = y.2 ∧ (strLt x.1.1 y.1.1 ∨ (x.1.1 = y.1.1 ∧ strLe x.1.2 y.1.2)))

/-- Strict version of `rankLE`: holds between two entries of the output
exactly when the first must come strictly earlier. -/
def rankLT (x y : (String × String) × Nat) : Prop :=
  y.2 < x.2 ∨ (x.2 = y.2 ∧ (strLt x.1.1 y.1.1 ∨ (x.1.1 = y.1.1 ∧ strLt x.1.2 y.1.2)))

instance : DecidableRel rankLE := fun x y => by unfold rankLE; infer_instance

instance : DecidableRel rankLT := fun x y => by unfold rankLT; infer_instance

/-- The pure aggregation part of `co_occurring_airline_pairs_by_origin`
after parsing: group, generate pairs, reduce by key, sort. -/
def aggregate (records : List ((String × String) × String)) :
    List ((String × String) × Nat) :=
  List.insertionSort rankLE (reduceByKey (increments (groupByKey records)))

/-- `co_occurring_airline_pairs_by_origin(flights_data)` of the source on a
list of text lines; `none` models the job aborting on an unparseable line. -/
def co_occurring_airline_pairs_by_origin (flights_data : List String) :
    Option (List ((String × String) × Nat)) :=
  (parseLines flights_data).map aggregate

/-- One value of the problem-1 result mapping built in `main`:
`{"flight_1": ..., "flight_2": ..., "common_origin": ...}`. -/
structure P1Entry where
  flight_1 : String
  flight_2 : String
  common_origin : Nat
deriving DecidableEq

/-- The problem-1 formatting step of `main`: `top10 = result[:10]` and then
`{str(i + 1): {...top10[i]...} for i in range(10)}`, as an association list
keyed by the rank strings; `none` models the `IndexError` raised when
`top10[i]` is indexed beyond the end. -/
def format_problem1 (result : List ((String × String) × Nat)) :
    Option (List (String × P1Entry)) :=
  (List.range 10).mapM (fun i =>
    ((result.take 10)[i]?).map (fun e => (toString (i + 1), P1Entry.mk e.1.1 e.1.2 e.2)))

/-- The object store seen by the sink: a list of `(path, content)` objects
(the same path may in principle hold several objects, so that "exactly one
object afterwards" is a real statement). -/
def delete_gcs_path (store : List (String × String)) (gcs_path : String) :
    List (String × String) :=
  if store.any (fun e => decide (e.1 = gcs_path)) then
    store.filter (fun e => !(decide (e.1 = gcs_path)))
  else store

/-- `save_json_to_gcs`: delete whatever is at the target path, then write
the serialized document as a single object there. -/
def save_json_to_gcs (store : List (String × String)) (obj gcs_path : String) :
    List (String × String) :=
  delete_gcs_path store gcs_path ++ [(gcs_path, obj)]

/-- One entry of the `/results` response body: either the parsed JSON of a
present file, or the `{error, path}` object built for a missing or
unreadable one. -/
inductive EntryResult (J : Type) where
  | parsed (j : J)
  | errorObj (error : String) (path : String)
deriving DecidableEq

/-- The `/results` response: HTTP status code plus the JSON body fields. -/
structure ResultsResponse (J : Type) where
  code : Nat
  status : String
  bucket : String
  problem_1 : EntryResult J
  problem_2 : EntryResult J
deriving DecidableEq

/-- Python `s.endswith(post)`, computed on the character lists. -/
def strEndsWith (s post : String) : Bool :=
  post.data.isSuffixOf s.data

/-- The path normalization of `get_results`: append a `/` to a non-empty
path parameter that does not already end in one. -/
def normalizePath (p : String) : String :=
  if p ≠ "" ∧ ¬ strEndsWith p ("/") then p ++ "/" else p

/-- One `try/except` block of `get_results` for a single object path:
present and parseable gives the parsed JSON, absent gives the
`File not found` object and sets the client-error flag, present but
unparseable gives the exception-message object without setting the flag. -/
def fetchBlobEntry {J : Type} (parse : String → Except String J)
    (blobs : String → Option String) (bucketName objPath : String) :
    EntryResult J × Bool :=
  match blobs objPath with
  | some content =>
    match parse content with
    | .ok j => (.parsed j, false)
    | .error e => (.errorObj e ("gs://" ++ bucketName ++ "/" ++ objPath), false)
  | none => (.errorObj ("File not found") ("gs://" ++ bucketName ++ "/" ++ objPath), true)

/-- The `/results` handler `get_results` of `flask_app.py`, over an
abstract bucket (`blobs`) and JSON parser (`parse`): reads the two fixed
sub-paths, reports per-entry errors, and answers 200/`success` when both
are present, else 400/`client_error`. -/
def get_results {J : Type} (parse : String → Except String J)
    (blobs : String → Option String) (bucketName pathParam : String) :
    ResultsResponse J :=
  let pfx := normalizePath pathParam
  let p1 := fetchBlobEntry parse blobs bucketName (pfx ++ "problem1/part-00000")
  let p2 := fetchBlobEntry parse blobs bucketName (pfx ++ "problem2/part-00000")
  let clientError := p1.2 || p2.2
  { code := if clientError then 400 else 200
    status := if clientError then ("client_error") else ("success")
    bucket := bucketName
    problem_1 := p1.1
    problem_2 := p2.1 }

/-- The columns of the flights DataFrame used by `air_flights_avg_airtime`;
`AirTime` is nullable, with the numeric value modelled in `ℚ`. -/
structure FlightRow where
  originCityName : String
  destCityName : String
  airTime : Option ℚ

/-- The filter of `air_flights_avg_airtime`: origin city Los Angeles,
destination city New York, non-null `AirTime`. -/
def laNyFilter (r : FlightRow) : Bool :=
  decide (r.originCityName = "Los Angeles, CA") &&
    decide (r.destCityName = "New York, NY") && r.airTime.isSome

/-- The `avg("AirTime")` aggregate of the filtered frame: `none` is the SQL
`NULL` produced when no row matches. -/
def avg_airtime_agg (flights : List FlightRow) : Option ℚ :=
  let filtered := flights.filter laNyFilter
  if filtered.isEmpty then none
  else some ((filtered.map (fun r => r.airTime.getD 0)).sum / filtered.length)

/-- `air_flights_avg_airtime`: the final
`float(df["avg_airtime"]) if df["avg_airtime"] else 0.0` — Python
truthiness, under which both `None` and an average of exactly `0.0` take
the `0.0` fallback branch. -/
def air_flights_avg_airtime (flights : List FlightRow) : ℚ :=
  match avg_airtime_agg flights with
  | some v => if v ≠ 0 then v else 0
  | none => 0

/-! ### Order theory for the code-point lexicographic comparison -/

theorem listLt_irrefl (l : List Char) : listLt l l = false := by
  induction l with
  | nil => rfl
  | cons a as ih => simp [listLt, lt_irrefl, ih]

theorem listLt_asymm : ∀ {a b : List Char}, listLt a b = true → listLt b a = false := by
  intro a
  induction a with
  | nil =>
    intro b h
    cases b with
    | nil => simp [listLt] at h
    | cons c cs => rfl
  | cons x xs ih =>
    intro b h
    cases b with
    | nil => simp [listLt] at h
    | cons y ys =>
      simp only [listLt] at h ⊢
      rcases lt_trichotomy x y with hxy | hxy | hxy
      · simp [hxy, asymm hxy]
      · subst hxy
        simpa [lt_irrefl] using ih (by simpa [lt_irrefl] using h)
      · simp [hxy, asymm hxy] at h

theorem listLt_trans : ∀ {a b c : List Char},
    listLt a b = true → listLt b c = true → listLt a c = true := by
  intro a
  induction a with
  | nil =>
    intro b c hab hbc
    cases c with
    | nil => cases b <;> simp [listLt] at hbc
    | cons z zs => rfl
  | cons x xs ih =>
    intro b c hab hbc
    cases b with
    | nil => simp [listLt] at hab
    | cons y ys =>
      cases c with
      | nil => simp [listLt] at hbc
      | cons z zs =>
        simp only [listLt] at hab hbc ⊢
        rcases lt_trichotomy x y with hxy | hxy | hxy
        · rcases lt_trichotomy y z with hyz | hyz | hyz
          · simp [lt_trans hxy hyz]
          · subst hyz; simp [hxy]
          · simp [hyz, asymm hyz] at hbc
        · subst hxy
          rcases lt_trichotomy x z with hxz | hxz | hxz
          · simp [hxz]
          · subst hxz
            simp only [lt_irrefl, if_false] at hab hbc ⊢
            exact ih hab hbc
          · simp [hxz, asymm hxz] at hbc
        · simp [hxy, asymm hxy] at hab

theorem listLt_antisymm : ∀ {a b : List Char},
    listLt a b = false → listLt b a = false → a = b := by
  intro a
  induction a with
  | nil =>
    intro b hab _
    cases b with
    | nil => rfl
    | cons c cs => simp [listLt] at hab
  | cons x xs ih =>
    intro b hab hba
    cases b with
    | nil => simp [listLt] at hba
    | cons y ys =>
      simp only [listLt] at hab hba
      rcases lt_trichotomy x y with hxy | hxy | hxy
      · simp [hxy] at hab
      · subst hxy
        simp only [lt_irrefl, if_false] at hab hba
        rw [ih hab hba]
      · simp [hxy, asymm hxy] at hba

theorem strLt_irrefl (a : String) : ¬ strLt a a := by
  simp [strLt, listLt_irrefl]

theorem strLt_asymm {a b : String} (h : strLt a b) : ¬ strLt b a := by
  unfold strLt at h ⊢
  simp [listLt_asymm h]

theorem strLt_trans {a b c : String} (h₁ : strLt a b) (h₂ : strLt b c) : strLt a c :=
  listLt_trans h₁ h₂

theorem strLe_of_strLt {a b : String} (h : strLt a b) : strLe a b :=
  listLt_asymm h

theorem strLt_of_strLe_ne {a b : String} (h : strLe a b) (hne : a ≠ b) : strLt a b := by
  unfold strLe at h
  unfold strLt
  cases hab : listLt a.data b.data with
  | true => rfl
  | false => exact absurd (String.ext (listLt_antisymm hab h)) hne

theorem strLe_total (a b : String) : strLe a b ∨ strLe b a := by
  unfold strLe
  cases h : listLt b.data a.data with
  | false => exact Or.inl rfl
  | true => exact Or.inr (listLt_asymm h)

theorem strLe_trans {a b c : String} (h₁ : strLe a b) (h₂ : strLe b c) : strLe a c := by
  unfold strLe at h₁ h₂ ⊢
  cases hca : listLt c.data a.data with
  | false => rfl
  | true =>
    exfalso
    cases hab : listLt a.data b.data with
    | true =>
      have : listLt c.data b.data = true := listLt_trans hca hab
      simp [this] at h₂
    | false =>
      have : a.data = b.data := listLt_antisymm hab h₁
      rw [← this] at h₂
      simp [hca] at h₂

theorem strLt_of_strLt_strLe {a b c : String} (h₁ : strLt a b) (h₂ : strLe b c) : strLt a c := by
  unfold strLe at h₂
  unfold strLt at h₁ ⊢
  cases hbc : listLt b.data c.data with
  | true => exact listLt_trans h₁ hbc
  | false =>
    have : b.data = c.data := listLt_antisymm hbc h₂
    rw [← this]
    exact h₁

theorem strLt_of_strLe_strLt {a b c : String} (h₁ : strLe a b) (h₂ : strLt b c) : strLt a c := by
  unfold strLe at h₁
  unfold strLt at h₂ ⊢
  cases hab : listLt a.data b.data with
  | true => exact listLt_trans hab h₂
  | false =>
    have : a.data = b.data := listLt_antisymm hab h₁
    rw [this]
    exact h₂

instance : IsTotal String strLe := ⟨strLe_total⟩

instance : IsTrans String strLe := ⟨fun _ _ _ => strLe_trans⟩

theorem strLt_ne {a b : String} (h : strLt a b) : a ≠ b := by
  rintro rfl
  exact strLt_irrefl a h

instance : IsTotal ((String × String) × Nat) rankLE :=
  ⟨by
    intro a b
    unfold rankLE
    rcases Nat.lt_trichotomy a.2 b.2 with h | h | h
    · exact Or.inr (Or.inl h)
    · by_cases h1 : a.1.1 = b.1.1
      · rcases strLe_total a.1.2 b.1.2 with h2 | h2
        · exact Or.inl (Or.inr ⟨h, Or.inr ⟨h1, h2⟩⟩)
        · exact Or.inr (Or.inr ⟨h.symm, Or.inr ⟨h1.symm, h2⟩⟩)
      · rcases strLe_total a.1.1 b.1.1 with h2 | h2
        · exact Or.inl (Or.inr ⟨h, Or.inl (strLt_of_strLe_ne h2 h1)⟩)
        · exact Or.inr (Or.inr ⟨h.symm, Or.inl (strLt_of_strLe_ne h2 (Ne.symm h1))⟩)
    · exact Or.inl (Or.inl h)⟩

instance : IsTrans ((String × String) × Nat) rankLE :=
  ⟨by
    intro a b c hab hbc
    unfold rankLE at hab hbc ⊢
    rcases hab with hab | ⟨hab, habs⟩
    · rcases hbc with hbc | ⟨hbc, _⟩
      · exact Or.inl (by omega)
      · exact Or.inl (by omega)
    · rcases hbc with hbc | ⟨hbc, hbcs⟩
      · exact Or.inl (by omega)
      · refine Or.inr ⟨hab.trans hbc, ?_⟩
        rcases habs with h1 | ⟨h1, h2⟩
        · rcases hbcs with h1' | ⟨h1', _⟩
          · exact Or.inl (strLt_trans h1 h1')
          · exact Or.inl (h1' ▸ h1)
        · rcases hbcs with h1' | ⟨h1', h2'⟩
          · exact Or.inl (h1 ▸ h1')
          · exact Or.inr ⟨h1.trans h1', strLe_trans h2 h2'⟩⟩

theorem rankLT_of_rankLE_ne {x y : (String × String) × Nat}
    (h : rankLE x y) (hne : x.1 ≠ y.1) : rankLT x y := by
  unfold rankLE at h
  unfold rankLT
  rcases h with h | ⟨hc, hs⟩
  · exact Or.inl h
  · refine Or.inr ⟨hc, ?_⟩
    rcases hs with h1 | ⟨h1, h2⟩
    · exact Or.inl h1
    · have hne2 : x.1.2 ≠ y.1.2 := by
        intro h2'
        exact hne (Prod.ext h1 h2')
      exact Or.inr ⟨h1, strLt_of_strLe_ne h2 hne2⟩

/-! ### Helper lemmas about filtering association lists by key -/

theorem filter_key_eq_nil {α : Type} [DecidableEq α] {l : List α} {p : α}
    (hm : p ∉ l) : l.filter (fun k => decide (k = p)) = [] := by
  refine List.filter_eq_nil_iff.mpr ?_
  intro x hx h
  cases of_decide_eq_true h
  exact hm hx

theorem filter_key_singleton {α : Type} [DecidableEq α] {l : List α} {p : α}
    (hnd : l.Nodup) (hm : p ∈ l) : l.filter (fun k => decide (k = p)) = [p] := by
  induction l with
  | nil => cases hm
  | cons a rest ih =>
    rcases List.nodup_cons.mp hnd with ⟨ha, hrest⟩
    rcases List.mem_cons.mp hm with rfl | hm'
    · rw [List.filter_cons_of_pos (by simp), filter_key_eq_nil ha]
    · have hne : a ≠ p := fun h => ha (h ▸ hm')
      rw [List.filter_cons_of_neg (by simp [hne]), ih hrest hm']

theorem lookupCount_nil (p : String × String) : lookupCount [] p = 0 := rfl

theorem lookupCount_perm {l₁ l₂ : List ((String × String) × Nat)}
    (h : l₁.Perm l₂) (p : String × String) : lookupCount l₁ p = lookupCount l₂ p :=
  ((h.filter _).map _).sum_eq

theorem lookupCount_append (l₁ l₂ : List ((String × String) × Nat)) (p : String × String) :
    lookupCount (l₁ ++ l₂) p = lookupCount l₁ p + lookupCount l₂ p := by
  simp [lookupCount, List.filter_append]

theorem lookupCount_eq_zero {l : List ((String × String) × Nat)} {p : String × String}
    (h : ∀ e ∈ l, e.1 ≠ p) : lookupCount l p = 0 := by
  unfold lookupCount
  rw [List.filter_eq_nil_iff.mpr (fun e he hd => h e he (of_decide_eq_true hd))]
  rfl

theorem lookupCount_flatMap {γ : Type} (gs : List γ)
    (f : γ → List ((String × String) × Nat)) (p : String × String) :
    lookupCount (gs.flatMap f) p = (gs.map (fun g => lookupCount (f g) p)).sum := by
  induction gs with
  | nil => rfl
  | cons g rest ih => simp [List.flatMap_cons, lookupCount_append, ih]

theorem filter_key_map_pair {α β : Type} [DecidableEq α] (keys : List α) (f : α → β)
    (p : α) :
    ((keys.map (fun k => (k, f k))).filter (fun e => decide (e.1 = p)))
      = (keys.filter (fun k => decide (k = p))).map (fun k => (k, f k)) := by
  rw [List.filter_map]
  rfl

theorem lookupCount_reduceByKey (l : List ((String × String) × Nat)) (p : String × String) :
    lookupCount (reduceByKey l) p = lookupCount l p := by
  have key : (reduceByKey l).filter (fun e => decide (e.1 = p))
      = ((l.map Prod.fst).dedup.filter (fun k => decide (k = p))).map
          (fun k => (k, lookupCount l k)) := by
    rw [reduceByKey, filter_key_map_pair]
  show (((reduceByKey l).filter (fun e => decide (e.1 = p))).map (fun e => e.2)).sum
      = lookupCount l p
  rw [key]
  by_cases hp : p ∈ (l.map Prod.fst).dedup
  · rw [filter_key_singleton (List.nodup_dedup _) hp]
    simp
  · rw [filter_key_eq_nil hp]
    refine Eq.symm (lookupCount_eq_zero (fun e he hep => ?_))
    exact hp (List.mem_dedup.mpr (List.mem_map.mpr ⟨e, he, hep⟩))

theorem lookupCount_aggregate (records : List ((String × String) × String))
    (p : String × String) :
    lookupCount (aggregate records) p = lookupCount (increments (groupByKey records)) p :=
  (lookupCount_perm (List.perm_insertionSort _ _) p).trans (lookupCount_reduceByKey _ p)

/-! ### Pairs generated per group -/

theorem mem_pairsOf_fst : ∀ {u : List String} {q : String × String},
    q ∈ pairsOf u → q.1 ∈ u := by
  intro u
  induction u with
  | nil => intro q h; simp [pairsOf] at h
  | cons a rest ih =>
    intro q h
    rcases List.mem_append.mp h with h | h
    · rcases List.mem_map.mp h with ⟨b, _, rfl⟩
      exact List.mem_cons_self a rest
    · exact List.mem_cons_of_mem a (ih h)

theorem mem_pairsOf {u : List String} (hu : u.Pairwise strLt) {x y : String} :
    (x, y) ∈ pairsOf u ↔ x ∈ u ∧ y ∈ u ∧ strLt x y := by
  induction u with
  | nil => simp [pairsOf]
  | cons a rest ih =>
    rcases List.pairwise_cons.mp hu with ⟨ha, hrest⟩
    rw [pairsOf]
    constructor
    · intro h
      rcases List.mem_append.mp h with h | h
      · rcases List.mem_map.mp h with ⟨b, hb, heq⟩
        cases heq
        exact ⟨List.mem_cons_self _ _, List.mem_cons_of_mem _ hb, ha _ hb⟩
      · obtain ⟨hx, hy, hxy⟩ := (ih hrest).mp h
        exact ⟨List.mem_cons_of_mem a hx, List.mem_cons_of_mem a hy, hxy⟩
    · rintro ⟨hx, hy, hxy⟩
      rcases List.mem_cons.mp hx with rfl | hx'
      · rcases List.mem_cons.mp hy with rfl | hy'
        · exact absurd hxy (strLt_irrefl _)
        · exact List.mem_append.mpr (Or.inl (List.mem_map.mpr ⟨y, hy', rfl⟩))
      · rcases List.mem_cons.mp hy with rfl | hy'
        · exact absurd hxy (strLt_asymm (ha _ hx'))
        · exact List.mem_append.mpr (Or.inr ((ih hrest).mpr ⟨hx', hy', hxy⟩))

theorem pairsOf_nodup {u : List String} (hu : u.Pairwise strLt) : (pairsOf u).Nodup := by
  induction u with
  | nil => exact List.nodup_nil
  | cons a rest ih =>
    rcases List.pairwise_cons.mp hu with ⟨ha, hrest⟩
    have hanotin : a ∉ rest := fun hmem => strLt_irrefl a (ha a hmem)
    rw [pairsOf, List.nodup_append]
    refine ⟨?_, ih hrest, ?_⟩
    · refine List.Nodup.map (fun b c hbc => ?_) (hrest.imp (fun h => strLt_ne h))
      exact congrArg Prod.snd hbc
    · intro q hq1 hq2
      rcases List.mem_map.mp hq1 with ⟨b, _, rfl⟩
      exact hanotin (mem_pairsOf_fst hq2)

/-- The sorted deduplicated airline list `u = sorted(set(airlines))` is
strictly increasing. -/
theorem sortedSet_pairwise (vs : List String) :
    (List.insertionSort strLe vs.dedup).Pairwise strLt := by
  have hsorted : (List.insertionSort strLe vs.dedup).Pairwise strLe :=
    List.sorted_insertionSort strLe vs.dedup
  have hnd : (List.insertionSort strLe vs.dedup).Nodup :=
    ((List.perm_insertionSort strLe vs.dedup).symm.nodup (List.nodup_dedup vs))
  exact (hsorted.and hnd).imp (fun h => strLt_of_strLe_ne h.1 h.2)

theorem mem_sortedSet (vs : List String) (x : String) :
    x ∈ List.insertionSort strLe vs.dedup ↔ x ∈ vs :=
  ((List.perm_insertionSort strLe vs.dedup).mem_iff).trans List.mem_dedup

theorem lookupCount_generate_pairs (vs : List String) {A B : String} (hAB : strLt A B) :
    lookupCount (generate_pairs vs) (A, B) = if A ∈ vs ∧ B ∈ vs then 1 else 0 := by
  have hu := sortedSet_pairwise vs
  have key : (generate_pairs vs).filter (fun e => decide (e.1 = (A, B)))
      = ((pairsOf (List.insertionSort strLe vs.dedup)).filter
          (fun q => decide (q = (A, B)))).map (fun p => (p, 1)) := by
    rw [generate_pairs, filter_key_map_pair]
  show (((generate_pairs vs).filter (fun e => decide (e.1 = (A, B)))).map
      (fun e => e.2)).sum = _
  rw [key]
  by_cases hm : A ∈ vs ∧ B ∈ vs
  · have hmem : (A, B) ∈ pairsOf (List.insertionSort strLe vs.dedup) :=
      (mem_pairsOf hu).mpr ⟨(mem_sortedSet vs A).mpr hm.1, (mem_sortedSet vs B).mpr hm.2, hAB⟩
    rw [filter_key_singleton (pairsOf_nodup hu) hmem]
    simp [hm]
  · have hnotmem : (A, B) ∉ pairsOf (List.insertionSort strLe vs.dedup) := by
      intro hmem
      obtain ⟨h1, h2, _⟩ := (mem_pairsOf hu).mp hmem
      exact hm ⟨(mem_sortedSet vs A).mp h1, (mem_sortedSet vs B).mp h2⟩
    rw [filter_key_eq_nil hnotmem]
    simp [hm]

theorem sum_map_ite {γ : Type} (l : List γ) (p : γ → Prop) [DecidablePred p] :
    (l.map (fun x => if p x then 1 else 0)).sum
      = (l.filter (fun x => decide (p x))).length := by
  induction l with
  | nil => rfl
  | cons a rest ih =>
    by_cases h : p a
    · simp [List.filter_cons, h, ih]
      omega
    · simp [List.filter_cons, h, ih]

theorem lookupCount_increments (records : List ((String × String) × String))
    {A B : String} (hAB : strLt A B) :
    lookupCount (increments (groupByKey records)) (A, B)
      = ((keysOf records).filter
          (fun k => decide (A ∈ valuesFor k records ∧ B ∈ valuesFor k records))).length := by
  rw [increments, groupByKey, lookupCount_flatMap, List.map_map]
  have hpt : ∀ k ∈ keysOf records,
      ((fun g : (String × String) × List String =>
          lookupCount (generate_pairs g.2) (A, B)) ∘
        (fun k => (k, valuesFor k records))) k
        = (fun k => if A ∈ valuesFor k records ∧ B ∈ valuesFor k records then 1 else 0) k :=
    fun k _ => lookupCount_generate_pairs _ hAB
  rw [List.map_congr_left hpt]
  exact sum_map_ite _ _

/-! ### Merging shards that keep groups whole -/

theorem dedup_append_disjoint {α : Type} [DecidableEq α] {l₁ l₂ : List α}
    (h : ∀ a ∈ l₁, a ∉ l₂) : (l₁ ++ l₂).dedup = l₁.dedup ++ l₂.dedup := by
  induction l₁ with
  | nil => simp
  | cons a rest ih =>
    have ha2 : a ∉ l₂ := h a (List.mem_cons_self a rest)
    have hrest : ∀ x ∈ rest, x ∉ l₂ := fun x hx => h x (List.mem_cons_of_mem a hx)
    by_cases hm : a ∈ rest
    · rw [List.cons_append, List.dedup_cons_of_mem (List.mem_append.mpr (Or.inl hm)),
        List.dedup_cons_of_mem hm, ih hrest]
    · have hnot : a ∉ rest ++ l₂ := fun hx => (List.mem_append.mp hx).elim hm ha2
      rw [List.cons_append, List.dedup_cons_of_not_mem hnot,
        List.dedup_cons_of_not_mem hm, ih hrest, List.cons_append]

theorem not_key_of_not_mem_keysOf {k : String × String}
    {r : List ((String × String) × String)} (h : k ∉ keysOf r) :
    ∀ e ∈ r, e.1 ≠ k := by
  intro e he heq
  exact h (List.mem_dedup.mpr (List.mem_map.mpr ⟨e, he, heq⟩))

theorem keysOf_append {r1 r2 : List ((String × String) × String)}
    (hdisj : ∀ k ∈ keysOf r1, k ∉ keysOf r2) :
    keysOf (r1 ++ r2) = keysOf r1 ++ keysOf r2 := by
  unfold keysOf at hdisj ⊢
  rw [List.map_append]
  refine dedup_append_disjoint ?_
  intro a ha hb
  exact hdisj a (List.mem_dedup.mpr ha) (List.mem_dedup.mpr hb)

theorem valuesFor_append_left {k : String × String}
    {r1 r2 : List ((String × String) × String)} (h : ∀ e ∈ r2, e.1 ≠ k) :
    valuesFor k (r1 ++ r2) = valuesFor k r1 := by
  unfold valuesFor
  rw [List.filter_append,
    List.filter_eq_nil_iff.mpr (fun e he hd => h e he (of_decide_eq_true hd)),
    List.append_nil]

theorem valuesFor_append_right {k : String × String}
    {r1 r2 : List ((String × String) × String)} (h : ∀ e ∈ r1, e.1 ≠ k) :
    valuesFor k (r1 ++ r2) = valuesFor k r2 := by
  unfold valuesFor
  rw [List.filter_append,
    List.filter_eq_nil_iff.mpr (fun e he hd => h e he (of_decide_eq_true hd)),
    List.nil_append]

theorem groupByKey_append {r1 r2 : List ((String × String) × String)}
    (hdisj : ∀ k ∈ keysOf r1, k ∉ keysOf r2) :
    groupByKey (r1 ++ r2) = groupByKey r1 ++ groupByKey r2 := by
  unfold groupByKey
  rw [keysOf_append hdisj, List.map_append]
  congr 1
  · refine List.map_congr_left (fun k hk => ?_)
    rw [valuesFor_append_left (not_key_of_not_mem_keysOf (hdisj k hk))]
  · refine List.map_congr_left (fun k hk => ?_)
    rw [valuesFor_append_right (not_key_of_not_mem_keysOf (fun hmem => hdisj k hmem hk))]

theorem increments_append (g1 g2 : List ((String × String) × List String)) :
    increments (g1 ++ g2) = increments g1 ++ increments g2 := by
  unfold increments
  rw [List.flatMap_append]

/-! ### `Option`-monad `mapM` lemmas for the parser and the formatter -/

theorem optionMapM_eq_none_iff {α β : Type} (f : α → Option β) (l : List α) :
    l.mapM f = none ↔ ∃ a ∈ l, f a = none := by
  induction l with
  | nil =>
    constructor
    · intro h
      rw [show List.mapM f ([] : List α) = some [] from rfl] at h
      simp at h
    · rintro ⟨a, ha, _⟩
      exact absurd ha (List.not_mem_nil a)
  | cons a rest ih =>
    rw [List.mapM_cons]
    cases h : f a with
    | none =>
      constructor
      · intro _
        exact ⟨a, List.mem_cons_self a rest, h⟩
      · intro _
        rfl
    | some b =>
      constructor
      · intro hnone
        simp only [Option.some_bind] at hnone
        cases h2 : rest.mapM f with
        | none =>
          obtain ⟨x, hx, hfx⟩ := ih.mp h2
          exact ⟨x, List.mem_cons_of_mem a hx, hfx⟩
        | some bs =>
          rw [h2] at hnone
          simp at hnone
      · rintro ⟨x, hx, hfx⟩
        rcases List.mem_cons.mp hx with rfl | hx'
        · rw [h] at hfx
          cases hfx
        · have hrest : rest.mapM f = none := ih.mpr ⟨x, hx', hfx⟩
          show (rest.mapM f >>= fun bs => pure (b :: bs)) = none
          rw [hrest]
          rfl

theorem optionMapM_eq_some_map {α β : Type} (f : α → Option β) (g : α → β) (l : List α)
    (h : ∀ a ∈ l, f a = some (g a)) : l.mapM f = some (l.map g) := by
  induction l with
  | nil => rfl
  | cons a rest ih =>
    rw [List.mapM_cons, h a (List.mem_cons_self a rest),
      ih (fun x hx => h x (List.mem_cons_of_mem a hx))]
    rfl

/-! ### Canonical orientation of every key the aggregator produces -/

theorem canonical_of_mem_aggregate {records : List ((String × String) × String)}
    {e : (String × String) × Nat} (he : e ∈ aggregate records) :
    strLt e.1.1 e.1.2 := by
  have he' : e ∈ reduceByKey (increments (groupByKey records)) :=
    (List.perm_insertionSort rankLE _).mem_iff.mp he
  rw [reduceByKey] at he'
  rcases List.mem_map.mp he' with ⟨k, hk, rfl⟩
  have hk' : k ∈ (increments (groupByKey records)).map Prod.fst := List.mem_dedup.mp hk
  rcases List.mem_map.mp hk' with ⟨inc, hinc, rfl⟩
  rw [increments] at hinc
  rcases List.mem_flatMap.mp hinc with ⟨g, _, hg⟩
  rw [generate_pairs] at hg
  rcases List.mem_map.mp hg with ⟨q, hq, rfl⟩
  have hq' : (q.1, q.2) ∈ pairsOf (List.insertionSort strLe g.2.dedup) := hq
  obtain ⟨_, _, hlt⟩ := (mem_pairsOf (sortedSet_pairwise g.2)).mp hq'
  exact hlt

/-- C1: on any input whose lines all parse, the count that
`co_occurring_airline_pairs_by_origin` associates with the canonical key
`(A, B)` (`A` lexicographically before `B`, so `{A, B}` is any unordered
pair of distinct airlines) equals the number of distinct `(date, origin)`
groups whose airline values contain both `A` and `B`; membership counts a
duplicated airline once, and a group missing either airline — in
particular any group with fewer than two distinct airlines — contributes
nothing. -/
theorem spec_c1 (lines : List String) (records : List ((String × String) × String))
    (A B : String) (hparse : parseLines lines = some records) (hAB : strLt A B) :
    co_occurring_airline_pairs_by_origin lines = some (aggregate records) ∧
    lookupCount (aggregate records) (A, B)
      = ((keysOf records).filter
          (fun k => decide (A ∈ valuesFor k records ∧ B ∈ valuesFor k records))).length := by
  constructor
  · rw [co_occurring_airline_pairs_by_origin, hparse]
    rfl
  · rw [lookupCount_aggregate]
    exact lookupCount_increments records hAB

/-- C1 witness: the worked example given in the spec, evaluated concretely —
the pair (AA, DL) co-occurs in both LAX groups, so its count is 2. -/
theorem spec_c1_witness :
    co_occurring_airline_pairs_by_origin
        ["2021-01-01,AA,LAX", "2021-01-01,DL,LAX", "2021-01-02,AA,LAX",
         "2021-01-02,DL,LAX", "2021-01-02,UA,LAX"]
      = some (aggregate
          [(("2021-01-01", "LAX"), "AA"), (("2021-01-01", "LAX"), "DL"),
           (("2021-01-02", "LAX"), "AA"), (("2021-01-02", "LAX"), "DL"),
           (("2021-01-02", "LAX"), "UA")]) ∧
    lookupCount
        (aggregate
          [(("2021-01-01", "LAX"), "AA"), (("2021-01-01", "LAX"), "DL"),
           (("2021-01-02", "LAX"), "AA"), (("2021-01-02", "LAX"), "DL"),
           (("2021-01-02", "LAX"), "UA")]) ("AA", "DL")
      = ((keysOf
            [(("2021-01-01", "LAX"), "AA"), (("2021-01-01", "LAX"), "DL"),
             (("2021-01-02", "LAX"), "AA"), (("2021-01-02", "LAX"), "DL"),
             (("2021-01-02", "LAX"), "UA")]).filter
          (fun k => decide
            ("AA" ∈ valuesFor k
                [(("2021-01-01", "LAX"), "AA"), (("2021-01-01", "LAX"), "DL"),
                 (("2021-01-02", "LAX"), "AA"), (("2021-01-02", "LAX"), "DL"),
                 (("2021-01-02", "LAX"), "UA")] ∧
              "DL" ∈ valuesFor k
                [(("2021-01-01", "LAX"), "AA"), (("2021-01-01", "LAX"), "DL"),
                 (("2021-01-02", "LAX"), "AA"), (("2021-01-02", "LAX"), "DL"),
                 (("2021-01-02", "LAX"), "UA")]))).length :=
  spec_c1 _ _ ("AA") ("DL") (by decide) (by decide)

/-- C2: every successful output of `co_occurring_airline_pairs_by_origin`
is strictly ordered by count descending, then first airline code
ascending, then second airline code ascending (`rankLT`); as the relation
is a strict total order on the entries and the embedded function is pure,
the ordered sequence is uniquely determined by the input, so re-running on
identical input yields the identical sequence. -/
theorem spec_c2 (lines : List String) (out : List ((String × String) × Nat))
    (hout : co_occurring_airline_pairs_by_origin lines = some out) :
    out.Pairwise rankLT := by
  rw [co_occurring_airline_pairs_by_origin] at hout
  rcases Option.map_eq_some'.mp hout with ⟨records, _, rfl⟩
  have hsorted : (aggregate records).Pairwise rankLE :=
    List.sorted_insertionSort rankLE (reduceByKey (increments (groupByKey records)))
  have hkeysbase : ((reduceByKey (increments (groupByKey records))).map Prod.fst).Nodup := by
    rw [reduceByKey, List.map_map]
    have hcomp : (Prod.fst ∘ fun k : String × String =>
        (k, lookupCount (increments (groupByKey records)) k)) = id := rfl
    rw [hcomp, List.map_id]
    exact List.nodup_dedup _
  have hkeys : ((aggregate records).map Prod.fst).Nodup :=
    (((List.perm_insertionSort rankLE _).map Prod.fst).symm).nodup hkeysbase
  have hne : (aggregate records).Pairwise (fun a b => a.1 ≠ b.1) :=
    List.pairwise_map.mp hkeys
  exact (hsorted.and hne).imp (fun h => rankLT_of_rankLE_ne h.1 h.2)

/-- C2 witness: the concrete three-entry output of the worked example is
strictly rank-ordered. -/
theorem spec_c2_witness :
    ([(("AA", "DL"), 2), (("AA", "UA"), 1), (("DL", "UA"), 1)] :
        List ((String × String) × Nat)).Pairwise rankLT :=
  spec_c2
    ["2021-01-01,AA,LAX", "2021-01-01,DL,LAX", "2021-01-02,AA,LAX",
     "2021-01-02,DL,LAX", "2021-01-02,UA,LAX"] _ (by decide)

/-- C3: in every successful output of
`co_occurring_airline_pairs_by_origin`, each pair key has its first
airline code strictly lexicographically smaller than its second, and
consequently the two orientations (A, B) and (B, A) never occur as
separate keys. -/
theorem spec_c3 (lines : List String) (out : List ((String × String) × Nat))
    (hout : co_occurring_airline_pairs_by_origin lines = some out) :
    (∀ e ∈ out, strLt e.1.1 e.1.2) ∧
    (∀ e ∈ out, ∀ e' ∈ out, ¬ (e.1.1 = e'.1.2 ∧ e.1.2 = e'.1.1)) := by
  rw [co_occurring_airline_pairs_by_origin] at hout
  rcases Option.map_eq_some'.mp hout with ⟨records, _, rfl⟩
  refine ⟨fun e he => canonical_of_mem_aggregate he, ?_⟩
  rintro e he e' he' ⟨h1, h2⟩
  have l1 := canonical_of_mem_aggregate he
  have l2 := canonical_of_mem_aggregate he'
  rw [h1, h2] at l1
  exact strLt_asymm l2 l1

/-- C3 witness: concrete single-group input; its one key (AA, DL) is
canonically oriented. -/
theorem spec_c3_witness :
    (∀ e ∈ ([(("AA", "DL"), 1)] : List ((String × String) × Nat)), strLt e.1.1 e.1.2) ∧
    (∀ e ∈ ([(("AA", "DL"), 1)] : List ((String × String) × Nat)),
      ∀ e' ∈ ([(("AA", "DL"), 1)] : List ((String × String) × Nat)),
        ¬ (e.1.1 = e'.1.2 ∧ e.1.2 = e'.1.1)) :=
  spec_c3 ["d,AA,o", "d,DL,o"] _ (by decide)

/-- C4: for any split of the records into two shards that keeps every
`(date, origin)` group whole (no key in both shards), aggregating each
shard independently and merging by summing the counts of equal pair keys
agrees, on every pair key, with aggregating the concatenation as one
dataset. -/
theorem spec_c4 (r1 r2 : List ((String × String) × String))
    (hdisj : ∀ k ∈ keysOf r1, k ∉ keysOf r2) (p : String × String) :
    lookupCount (aggregate (r1 ++ r2)) p
      = lookupCount (aggregate r1) p + lookupCount (aggregate r2) p := by
  rw [lookupCount_aggregate, lookupCount_aggregate, lookupCount_aggregate,
    groupByKey_append hdisj, increments_append, lookupCount_append]

/-- C4 witness: two one-group shards merge to the two-group total. -/
theorem spec_c4_witness :
    lookupCount
        (aggregate
          ([(("2021-01-01", "LAX"), "AA"), (("2021-01-01", "LAX"), "DL")] ++
            [(("2021-01-02", "LAX"), "AA"), (("2021-01-02", "LAX"), "DL")]))
        ("AA", "DL")
      = lookupCount
          (aggregate [(("2021-01-01", "LAX"), "AA"), (("2021-01-01", "LAX"), "DL")])
          ("AA", "DL")
        + lookupCount
            (aggregate [(("2021-01-02", "LAX"), "AA"), (("2021-01-02", "LAX"), "DL")])
            ("AA", "DL") :=
  spec_c4 _ _ (by decide) ("AA", "DL")

/-- C5: the problem-1 formatting step of `main` indexes ranks 0–9
unconditionally, so it fails (raises, modelled by `none`) exactly when the
aggregated result has fewer than 10 pairs, and succeeds whenever at least
10 exist. -/
theorem spec_c5 (result : List ((String × String) × Nat)) :
    format_problem1 result = none ↔ result.length < 10 := by
  rw [format_problem1, optionMapM_eq_none_iff]
  constructor
  · rintro ⟨i, hi, hnone⟩
    have hi10 : i < 10 := List.mem_range.mp hi
    have hn : (result.take 10)[i]? = none := Option.map_eq_none'.mp hnone
    by_contra h10
    push_neg at h10
    have hlt : i < (result.take 10).length := by
      rw [List.length_take]
      omega
    rw [List.getElem?_eq_getElem hlt] at hn
    simp at hn
  · intro hlt
    refine ⟨result.length, List.mem_range.mpr (by omega), ?_⟩
    refine Option.map_eq_none'.mpr ?_
    refine List.getElem?_eq_none ?_
    rw [List.length_take]
    omega

/-- C6 counterexample: a single wrong-arity row (two fields) makes the
whole run abort (`none`) even though a well-formed row follows, instead of
being dropped silently as the claim states. -/
theorem spec_c6_counterexample :
    co_occurring_airline_pairs_by_origin ["2021-01-01,AA", "2021-02-02,DL,LAX"] = none := by
  decide

/-- C6 (amended): a row whose comma-split yields fewer than three fields
makes the parsing stage raise, aborting the whole run (result `none`)
rather than dropping the row; and a row with an empty required field is
not excluded at all — it participates with the empty string as the field
value. -/
theorem spec_c6 (lines : List String) (line : String)
    (hmem : line ∈ lines) (hbad : parseLine line = none) :
    co_occurring_airline_pairs_by_origin lines = none ∧
    parseLine ("2021-01-01,,LAX") = some (("2021-01-01", "LAX"), "") := by
  constructor
  · rw [co_occurring_airline_pairs_by_origin, parseLines,
      (optionMapM_eq_none_iff parseLine lines).mpr ⟨line, hmem, hbad⟩]
    rfl
  · decide

/-- C6 witness: the amended claim evaluated at the concrete two-row input
with one malformed row. -/
theorem spec_c6_witness :
    co_occurring_airline_pairs_by_origin ["2021-01-01,AA", "2021-02-02,DL,LAX"] = none ∧
    parseLine ("2021-01-01,,LAX") = some (("2021-01-01", "LAX"), "") :=
  spec_c6 ["2021-01-01,AA", "2021-02-02,DL,LAX"] ("2021-01-01,AA") (by decide) (by decide)

/-- C7: whenever the pipeline succeeds with at least 10 pairs, the
problem-1 result document maps exactly the rank keys "1" … "10", in that
order, and the value at rank i+1 carries the pair at position i of the
ranked result: `flight_1`/`flight_2` are its two codes in sorted
(canonical) order and `common_origin` is its integer co-occurrence count,
not an origin code. -/
theorem spec_c7 (lines : List String) (out : List ((String × String) × Nat))
    (hout : co_occurring_airline_pairs_by_origin lines = some out)
    (hlen : 10 ≤ out.length) :
    ∃ doc : List (String × P1Entry), format_problem1 out = some doc ∧
      doc.map Prod.fst = ["1", "2", "3", "4", "5", "6", "7", "8", "9", "10"] ∧
      ∀ (i : Nat) (e : String × P1Entry), doc[i]? = some e →
        ∃ pr : (String × String) × Nat,
          out[i]? = some pr ∧ e.2.flight_1 = pr.1.1 ∧ e.2.flight_2 = pr.1.2 ∧
          strLt e.2.flight_1 e.2.flight_2 ∧ e.2.common_origin = pr.2 := by
  have hcanon : ∀ x ∈ out, strLt x.1.1 x.1.2 := by
    rw [co_occurring_airline_pairs_by_origin] at hout
    rcases Option.map_eq_some'.mp hout with ⟨records, _, rfl⟩
    exact fun x hx => canonical_of_mem_aggregate hx
  refine ⟨(List.range 10).map (fun i =>
      (toString (i + 1),
        P1Entry.mk ((out.take 10).getD i default).1.1 ((out.take 10).getD i default).1.2
          ((out.take 10).getD i default).2)), ?_, ?_, ?_⟩
  · rw [format_problem1]
    refine optionMapM_eq_some_map _ _ _ ?_
    intro i hi
    have hi10 : i < 10 := List.mem_range.mp hi
    have hitake : i < (out.take 10).length := by
      rw [List.length_take]
      omega
    show ((out.take 10)[i]?).map (fun e => (toString (i + 1), P1Entry.mk e.1.1 e.1.2 e.2))
        = some (toString (i + 1),
            P1Entry.mk ((out.take 10).getD i default).1.1 ((out.take 10).getD i default).1.2
              ((out.take 10).getD i default).2)
    rw [List.getElem?_eq_getElem hitake, List.getD_eq_getElem _ _ hitake]
    rfl
  · rw [List.map_map]
    show (List.range 10).map (fun i => toString (i + 1))
        = ["1", "2", "3", "4", "5", "6", "7", "8", "9", "10"]
    decide
  · rintro i e he
    rw [List.getElem?_map] at he
    cases hr : (List.range 10)[i]? with
    | none =>
      rw [hr] at he
      simp at he
    | some j =>
      rw [hr] at he
      have hi10 : i < 10 := by
        by_contra hge
        rw [List.getElem?_eq_none (by rw [List.length_range]; omega)] at hr
        simp at hr
      have hji : j = i := by
        rw [List.getElem?_eq_getElem (by rw [List.length_range]; omega : i < (List.range 10).length),
          List.getElem_range] at hr
        exact (Option.some.inj hr).symm
      subst hji
      have he' : e = (toString (j + 1),
          P1Entry.mk ((out.take 10).getD j default).1.1 ((out.take 10).getD j default).1.2
            ((out.take 10).getD j default).2) := (Option.some.inj he).symm
      subst he'
      have hitake : j < (out.take 10).length := by
        rw [List.length_take]
        omega
      have hiout : j < out.length := by omega
      refine ⟨out[j], List.getElem?_eq_getElem hiout, ?_, ?_, ?_, ?_⟩
      · rw [List.getD_eq_getElem _ _ hitake, List.getElem_take]
      · rw [List.getD_eq_getElem _ _ hitake, List.getElem_take]
      · show strLt ((out.take 10).getD j default).1.1 ((out.take 10).getD j default).1.2
        rw [List.getD_eq_getElem _ _ hitake, List.getElem_take]
        exact hcanon out[j] (List.getElem_mem hiout)
      · rw [List.getD_eq_getElem _ _ hitake, List.getElem_take]

/-- C7 witness: one group of five airlines yields exactly 10 canonical
pairs, and the formatted document for them exists with rank keys
"1" … "10". -/
theorem spec_c7_witness :
    ∃ doc : List (String × P1Entry),
      format_problem1
          [(("AA", "BB"), 1), (("AA", "CC"), 1), (("AA", "DD"), 1), (("AA", "EE"), 1),
           (("BB", "CC"), 1), (("BB", "DD"), 1), (("BB", "EE"), 1), (("CC", "DD"), 1),
           (("CC", "EE"), 1), (("DD", "EE"), 1)] = some doc ∧
      doc.map Prod.fst = ["1", "2", "3", "4", "5", "6", "7", "8", "9", "10"] ∧
      ∀ (i : Nat) (e : String × P1Entry), doc[i]? = some e →
        ∃ pr : (String × String) × Nat,
          [(("AA", "BB"), 1), (("AA", "CC"), 1), (("AA", "DD"), 1), (("AA", "EE"), 1),
           (("BB", "CC"), 1), (("BB", "DD"), 1), (("BB", "EE"), 1), (("CC", "DD"), 1),
           (("CC", "EE"), 1), (("DD", "EE"), 1)][i]? = some pr ∧
          e.2.flight_1 = pr.1.1 ∧ e.2.flight_2 = pr.1.2 ∧
          strLt e.2.flight_1 e.2.flight_2 ∧ e.2.common_origin = pr.2 :=
  spec_c7 ["d,AA,o", "d,BB,o", "d,CC,o", "d,DD,o", "d,EE,o"] _ (by decide) (by decide)

/-! ### The durable sink -/

theorem delete_gcs_path_no_key (store : List (String × String)) (p : String) :
    ∀ e ∈ delete_gcs_path store p, ¬ e.1 = p := by
  intro e he
  rw [delete_gcs_path] at he
  split at he
  · have := List.of_mem_filter he
    simpa using this
  · next h =>
    intro heq
    exact h (List.any_eq_true.mpr ⟨e, he, by simpa using heq⟩)

/-- C8: the sink deletes whatever exists at the target path and then
writes the document, so (a) writing the same document twice to the same
path is the same store transformation as writing it once, (b) after a
write exactly one object lives at the path and it holds the written
content, and (c) deleting a path that holds no object leaves the store
unchanged (and is not an error: `delete_gcs_path` is total). -/
theorem spec_c8 (store : List (String × String)) (p d : String) :
    save_json_to_gcs (save_json_to_gcs store d p) d p = save_json_to_gcs store d p ∧
    (save_json_to_gcs store d p).filter (fun e => decide (e.1 = p)) = [(p, d)] ∧
    ((∀ e ∈ store, ¬ e.1 = p) → delete_gcs_path store p = store) := by
  have hno := delete_gcs_path_no_key store p
  refine ⟨?_, ?_, ?_⟩
  · show delete_gcs_path (delete_gcs_path store p ++ [(p, d)]) p ++ [(p, d)]
        = delete_gcs_path store p ++ [(p, d)]
    congr 1
    rw [delete_gcs_path, if_pos
      (List.any_eq_true.mpr
        ⟨(p, d), List.mem_append.mpr (Or.inr (List.mem_cons_self _ _)), by simp⟩)]
    rw [List.filter_append]
    rw [List.filter_eq_self.mpr (fun e he => by simpa using hno e he)]
    simp
  · show (delete_gcs_path store p ++ [(p, d)]).filter (fun e => decide (e.1 = p)) = [(p, d)]
    rw [List.filter_append,
      List.filter_eq_nil_iff.mpr (fun e he hd => hno e he (of_decide_eq_true hd))]
    simp
  · intro h
    rw [delete_gcs_path, if_neg]
    intro hany
    rcases List.any_eq_true.mp hany with ⟨e, he, hd⟩
    exact h e he (of_decide_eq_true hd)

/-- C8 witness: concrete store with one unrelated object; double write at
a fresh path equals a single write, that write leaves exactly one object
holding the latest content, and deleting the absent path is a no-op. -/
theorem spec_c8_witness :
    save_json_to_gcs (save_json_to_gcs [("a", "old")] ("doc") ("p0")) ("doc") ("p0")
      = save_json_to_gcs [("a", "old")] ("doc") ("p0") ∧
    (save_json_to_gcs [("a", "old")] ("doc") ("p0")).filter (fun e => decide (e.1 = "p0"))
      = [("p0", "doc")] ∧
    delete_gcs_path [("a", "old")] ("p0") = [("a", "old")] :=
  ⟨(spec_c8 [("a", "old")] ("p0") ("doc")).1,
   (spec_c8 [("a", "old")] ("p0") ("doc")).2.1,
   (spec_c8 [("a", "old")] ("p0") ("doc")).2.2 (by decide)⟩

/-- C9: on a `/results` call where the problem-1 object is absent and the
problem-2 object is present and parseable, the handler answers status
code 400 with status string `client_error`, reports problem 1 as the
`File not found` error object naming the missing `gs://` path, and still
returns the parsed problem-2 document — the call as a whole is handled
(the embedded handler is a total function), not failed. -/
theorem spec_c9 {J : Type} (parse : String → Except String J)
    (blobs : String → Option String) (bucketName pathParam content : String) (j : J)
    (h1 : blobs (normalizePath pathParam ++ "problem1/part-00000") = none)
    (h2 : blobs (normalizePath pathParam ++ "problem2/part-00000") = some content)
    (hp : parse content = .ok j) :
    (get_results parse blobs bucketName pathParam).code = 400 ∧
    (get_results parse blobs bucketName pathParam).status = "client_error" ∧
    (get_results parse blobs bucketName pathParam).problem_1
      = .errorObj ("File not found")
          ("gs://" ++ bucketName ++ "/" ++ (normalizePath pathParam ++ "problem1/part-00000")) ∧
    (get_results parse blobs bucketName pathParam).problem_2 = .parsed j := by
  simp [get_results, fetchBlobEntry, h1, h2, hp]

/-- C9 witness: a concrete bucket in which only the problem-2 object
exists, with a parser that accepts it. -/
theorem spec_c9_witness :
    (get_results (fun s => Except.ok s.length)
        (fun q => if q = "out/problem2/part-00000" then some ("[]") else none)
        ("b") ("out")).code = 400 ∧
    (get_results (fun s => Except.ok s.length)
        (fun q => if q = "out/problem2/part-00000" then some ("[]") else none)
        ("b") ("out")).status = "client_error" ∧
    (get_results (fun s => Except.ok s.length)
        (fun q => if q = "out/problem2/part-00000" then some ("[]") else none)
        ("b") ("out")).problem_1
      = .errorObj ("File not found")
          ("gs://" ++ "b" ++ "/" ++ (normalizePath ("out") ++ "problem1/part-00000")) ∧
    (get_results (fun s => Except.ok s.length)
        (fun q => if q = "out/problem2/part-00000" then some ("[]") else none)
        ("b") ("out")).problem_2 = .parsed 2 :=
  spec_c9 (fun s => Except.ok s.length)
    (fun q => if q = "out/problem2/part-00000" then some ("[]") else none)
    ("b") ("out") ("[]") 2 (by decide) (by decide) rfl

/-- C10: when no row passes the Los-Angeles-to-New-York non-null-AirTime
filter, the aggregate is SQL `NULL` and `air_flights_avg_airtime` returns
exactly 0 instead of failing or propagating the null; and because the
fallback is a Python truthiness test on the aggregate, a genuine average
of exactly 0 also lands on the same 0 result, indistinguishable from the
empty case. -/
theorem spec_c10 (flights : List FlightRow) :
    ((∀ r ∈ flights, laNyFilter r = false) → air_flights_avg_airtime flights = 0) ∧
    (avg_airtime_agg flights = some 0 → air_flights_avg_airtime flights = 0) := by
  constructor
  · intro h
    have hf : flights.filter laNyFilter = [] :=
      List.filter_eq_nil_iff.mpr (fun r hr hl => by rw [h r hr] at hl; cases hl)
    have hagg : avg_airtime_agg flights = none := by
      rw [avg_airtime_agg, hf]
      rfl
    rw [air_flights_avg_airtime, hagg]
  · intro h
    rw [air_flights_avg_airtime, h]
    simp

/-- C10 witness: the empty frame gives 0, and one matching row with
AirTime 0 gives aggregate `some 0` and result 0. -/
theorem spec_c10_witness :
    air_flights_avg_airtime ([] : List FlightRow) = 0 ∧
    avg_airtime_agg [FlightRow.mk ("Los Angeles, CA") ("New York, NY") (some 0)] = some 0 ∧
    air_flights_avg_airtime [FlightRow.mk ("Los Angeles, CA") ("New York, NY") (some 0)] = 0 :=
  ⟨(spec_c10 []).1 (fun r hr => absurd hr (List.not_mem_nil r)),
   by norm_num [avg_airtime_agg, laNyFilter],
   (spec_c10 _).2 (by norm_num [avg_airtime_agg, laNyFilter])⟩

/-- C5 witness: the empty result (fewer than 10 pairs) makes the
formatting step fail. -/
theorem spec_c5_witness :
    format_problem1 ([] : List ((String × String) × Nat)) = none :=
  (spec_c5 []).mpr (by decide)
